import Mathlib

/-!
Shallow embedding of the `Project5.cpp` scheduler simulator: the `Process`
record, the `DynamicQueue` container with its operations `enqueue`,
`simulateSleep`, `wakeUpProcesses` and `printQueue`, and the shell agent's
operation trace.  The `std::map<int, shared_ptr<Process>>` wait queue is
modelled as an association list sorted by key (the map's iteration order);
`simulateSleep` returns `Option` because on a wholly unknown pid the C++
code dereferences a null `shared_ptr` (undefined behaviour), modelled as
`none`.
-/

namespace Project5

structure Process where
  id : Int
  isForeground : Bool
  command : String
  promoted : Bool := false
  remainingTime : Int := 0
deriving DecidableEq, Repr

/-- `Process::toString`: `"<id><F|B>[*]"`, the `*` present iff `promoted`. -/
def Process.toString (p : Process) : String :=
  ToString.toString p.id ++ (if p.isForeground then "F" else "B")
    ++ (if p.promoted then "*" else "")

structure DynamicQueue where
  fgProcesses : List Process := []
  bgProcesses : List Process := []
  /-- `map<int, shared_ptr<Process>>`, kept sorted by key (map iteration order). -/
  waitQueue : List (Int × Process) := []
  processCount : Int := 0
  bgCount : Int := 0
deriving DecidableEq, Repr

/-- `std::map::operator[]` followed by assignment: insert-or-replace,
keeping the list sorted by key. -/
def mapInsert (k : Int) (v : Process) : List (Int × Process) → List (Int × Process)
  | [] => [(k, v)]
  | (k', v') :: rest =>
    if k < k' then (k, v) :: (k', v') :: rest
    else if k = k' then (k, v) :: rest
    else (k', v') :: mapInsert k v rest

/-- `std::map::find`: lookup by key. -/
def mapFind (k : Int) : List (Int × Process) → Option Process
  | [] => none
  | (k', v') :: rest => if k = k' then some v' else mapFind k rest

/-- `DynamicQueue::enqueue`: append to `fgProcesses` if foreground, else to
`bgProcesses` incrementing `bgCount`; increment `processCount`. -/
def DynamicQueue.enqueue (q : DynamicQueue) (p : Process) : DynamicQueue :=
  if p.isForeground then
    { q with fgProcesses := q.fgProcesses ++ [p],
             processCount := q.processCount + 1 }
  else
    { q with bgProcesses := q.bgProcesses ++ [p],
             bgCount := q.bgCount + 1,
             processCount := q.processCount + 1 }

/-- `DynamicQueue::simulateSleep`.  Search `fgProcesses` then `bgProcesses`
for the first process with the given id and move it into the wait map; in
either case the trailing `waitQueue[pid]->remainingTime = seconds;` sets the
remaining time.  When the pid is in neither ready list that trailing line
still runs: if the pid is already a key of the wait map its entry's
remaining time is overwritten, and otherwise `operator[]` inserts a null
`shared_ptr` which is then dereferenced — undefined behaviour, modelled as
`none`. -/
def DynamicQueue.simulateSleep (q : DynamicQueue) (pid seconds : Int) :
    Option DynamicQueue :=
  match q.fgProcesses.find? (fun p => p.id == pid) with
  | some p => some
      { q with fgProcesses := q.fgProcesses.eraseP (fun p => p.id == pid),
               waitQueue := mapInsert pid { p with remainingTime := seconds } q.waitQueue }
  | none =>
    match q.bgProcesses.find? (fun p => p.id == pid) with
    | some p => some
        { q with bgProcesses := q.bgProcesses.eraseP (fun p => p.id == pid),
                 bgCount := q.bgCount - 1,
                 waitQueue := mapInsert pid { p with remainingTime := seconds } q.waitQueue }
    | none =>
      match mapFind pid q.waitQueue with
      | some p => some
          { q with waitQueue := mapInsert pid { p with remainingTime := seconds } q.waitQueue }
      | none => none

/-- The loop body of `DynamicQueue::wakeUpProcesses`, run over the wait-map
entries in iteration (key) order: returns the surviving wait entries, the
processes appended to `fgProcesses` and the processes appended to
`bgProcesses`, each in iteration order. -/
def wakeRec : List (Int × Process) → List (Int × Process) × List Process × List Process
  | [] => ([], [], [])
  | (k, p) :: rest =>
    let p' := { p with remainingTime := p.remainingTime - 1 }
    let r := wakeRec rest
    if p'.remainingTime ≤ 0 then
      if p'.isForeground then (r.1, p' :: r.2.1, r.2.2)
      else (r.1, r.2.1, p' :: r.2.2)
    else ((k, p') :: r.1, r.2.1, r.2.2)

/-- `DynamicQueue::wakeUpProcesses`: decrement every waiter; entries whose
post-decrement remaining time is ≤ 0 are erased from the wait map and pushed
onto the back of their native list (`bgCount++` for background ones). -/
def DynamicQueue.wakeUpProcesses (q : DynamicQueue) : DynamicQueue :=
  let r := wakeRec q.waitQueue
  { q with waitQueue := r.1,
           fgProcesses := q.fgProcesses ++ r.2.1,
           bgProcesses := q.bgProcesses ++ r.2.2,
           bgCount := q.bgCount + r.2.2.length }

/-- `DynamicQueue::printQueue`: the text written to `cout`, statement by
statement. -/
def DynamicQueue.printQueue (q : DynamicQueue) : String :=
  "Running: [" ++ ToString.toString q.bgCount ++ "B]\n"
    ++ "---------------------------\n"
    ++ "DQ: (bottom) "
    ++ (q.bgProcesses.foldl (fun s p => s ++ "[" ++ p.toString ++ "] ") "")
    ++ "\nP => "
    ++ (q.fgProcesses.foldl (fun s p => s ++ "[" ++ p.toString ++ "] ") "")
    ++ "(top)\n"
    ++ "---------------------------\n"
    ++ "WQ: "
    ++ (q.waitQueue.foldl
        (fun s wp => s ++ "[" ++ wp.2.toString ++ ": "
          ++ ToString.toString wp.2.remainingTime ++ "s] ") "")
    ++ "\n...\n"

/-- `DynamicQueue::printQueue` as a state-passing computation: each `cout`
statement reads the queue and emits text; none of them writes to the queue,
so the statement sequence threads the state through unchanged. -/
def DynamicQueue.printQueueSt (q : DynamicQueue) : DynamicQueue × String :=
  let s0 := (q, "")
  let s1 := (s0.1, s0.2 ++ "Running: [" ++ ToString.toString s0.1.bgCount ++ "B]\n")
  let s2 := (s1.1, s1.2 ++ "---------------------------\n")
  let s3 := (s2.1, s2.2 ++ "DQ: (bottom) ")
  let s4 := (s3.1, s3.2
    ++ s3.1.bgProcesses.foldl (fun s p => s ++ "[" ++ p.toString ++ "] ") "")
  let s5 := (s4.1, s4.2 ++ "\nP => ")
  let s6 := (s5.1, s5.2
    ++ s5.1.fgProcesses.foldl (fun s p => s ++ "[" ++ p.toString ++ "] ") "")
  let s7 := (s6.1, s6.2 ++ "(top)\n")
  let s8 := (s7.1, s7.2 ++ "---------------------------\n")
  let s9 := (s8.1, s8.2 ++ "WQ: ")
  let s10 := (s9.1, s9.2
    ++ s9.1.waitQueue.foldl
        (fun s wp => s ++ "[" ++ wp.2.toString ++ ": "
          ++ ToString.toString wp.2.remainingTime ++ "s] ") "")
  (s10.1, s10.2 ++ "\n...\n")

/-- The snapshot layout transcribed from the specification's format block:
six lines — `Running: [<bg_count>B]`, a separator, the background line, the
foreground line ending in `(top)`, a separator, and the wait line — where
each process is rendered as `[<label>] ` and each wait entry as
`[<label>: <t>s] `, the label being `<id>` then `F`/`B` then `*` iff
promoted. -/
def snapshotSpec (q : DynamicQueue) : String :=
  let label : Process → String := fun p =>
    ToString.toString p.id ++ (if p.isForeground then "F" else "B")
      ++ (if p.promoted then "*" else "")
  String.join
    [ "Running: [" ++ ToString.toString q.bgCount ++ "B]\n",
      "---------------------------\n",
      "DQ: (bottom) " ++ String.join (q.bgProcesses.map (fun p => "[" ++ label p ++ "] ")),
      "\nP => " ++ String.join (q.fgProcesses.map (fun p => "[" ++ label p ++ "] ")) ++ "(top)\n",
      "---------------------------\n",
      "WQ: " ++ String.join (q.waitQueue.map
        (fun wp => "[" ++ label wp.2 ++ ": " ++ ToString.toString wp.2.remainingTime ++ "s] "))
        ++ "\n...\n" ]

/-- `n` monitor ticks: `n` successive calls of `wakeUpProcesses`. -/
def ticks : Nat → DynamicQueue → DynamicQueue
  | 0, q => q
  | n + 1, q => ticks n q.wakeUpProcesses

/-- An operation the shell agent performs on the shared queue. -/
inductive ShellEvent where
  | enq (p : Process)
  | slp (pid seconds : Int)
deriving DecidableEq, Repr

/-- The command catalogue of `shellProcess`. -/
def shellCommands : List String :=
  ["alarm clock", "todo list", "email check", "music player", "video player", "web browser"]

/-- The loop of `shellProcess`: for each command, enqueue a process carrying
the current `processId` (foreground iff the id is even), then — after the
id has been incremented — call `simulateSleep(id, interval * 2)` when the
incremented id is divisible by 3. -/
def shellTraceAux (interval : Int) : Int → List String → List ShellEvent
  | _, [] => []
  | processId, line :: rest =>
    let isForeground := processId % 2 == 0
    let p : Process := { id := processId, isForeground := isForeground, command := line }
    let nextId := processId + 1
    (ShellEvent.enq p ::
      (if nextId % 3 == 0 then [ShellEvent.slp p.id (interval * 2)] else []))
      ++ shellTraceAux interval nextId rest

/-- The queue-operation trace of `shellProcess`, which starts at id 2. -/
def shellTrace (interval : Int) : List ShellEvent :=
  shellTraceAux interval 2 shellCommands

/-- Apply one shell event to the queue. -/
def runEvent (q : DynamicQueue) : ShellEvent → Option DynamicQueue
  | ShellEvent.enq p => some (q.enqueue p)
  | ShellEvent.slp pid seconds => q.simulateSleep pid seconds

/-- Apply a list of shell events in order. -/
def runTrace (q : DynamicQueue) : List ShellEvent → Option DynamicQueue
  | [] => some q
  | e :: rest =>
    match runEvent q e with
    | some q' => runTrace q' rest
    | none => none

/-- The queue `main` builds before spawning the agents: processes 0 (shell,
foreground) and 1 (monitor, background) enqueued into the empty queue. -/
def bootstrapQueue : DynamicQueue :=
  (DynamicQueue.enqueue {} { id := 0, isForeground := true, command := "shell" }).enqueue
    { id := 1, isForeground := false, command := "monitor" }

/-- All ids held by the queue (ready lists by process id, wait map by key). -/
def DynamicQueue.ids (q : DynamicQueue) : List Int :=
  q.fgProcesses.map Process.id ++ q.bgProcesses.map Process.id
    ++ q.waitQueue.map Prod.fst

/-- States reachable from the empty queue by the queue's operations, each
`simulateSleep` call being defined (not the undefined-behaviour branch). -/
inductive Reachable : DynamicQueue → Prop
  | init : Reachable {}
  | enqueue (q : DynamicQueue) (p : Process) :
      Reachable q → Reachable (q.enqueue p)
  | sleep (q : DynamicQueue) (pid seconds : Int) (q' : DynamicQueue) :
      Reachable q → q.simulateSleep pid seconds = some q' → Reachable q'
  | wake (q : DynamicQueue) :
      Reachable q → Reachable q.wakeUpProcesses

/-- States reachable when every `simulateSleep` targets a pid that is
present in one of the two ready lists (enqueues are unrestricted): the
hypothesis class of claim (P1) as stated. -/
inductive ReachableS : DynamicQueue → Prop
  | init : ReachableS {}
  | enqueue (q : DynamicQueue) (p : Process) :
      ReachableS q → ReachableS (q.enqueue p)
  | sleep (q : DynamicQueue) (pid seconds : Int) (q' : DynamicQueue) :
      ReachableS q →
      (pid ∈ q.fgProcesses.map Process.id ∨ pid ∈ q.bgProcesses.map Process.id) →
      q.simulateSleep pid seconds = some q' → ReachableS q'
  | wake (q : DynamicQueue) :
      ReachableS q → ReachableS q.wakeUpProcesses

/-- States reachable when additionally every enqueued process carries an id
not already held by the queue (the spec's "the caller must not re-enqueue a
process already held by the queue"). -/
inductive ReachableF : DynamicQueue → Prop
  | init : ReachableF {}
  | enqueue (q : DynamicQueue) (p : Process) :
      ReachableF q → p.id ∉ q.ids → ReachableF (q.enqueue p)
  | sleep (q : DynamicQueue) (pid seconds : Int) (q' : DynamicQueue) :
      ReachableF q →
      (pid ∈ q.fgProcesses.map Process.id ∨ pid ∈ q.bgProcesses.map Process.id) →
      q.simulateSleep pid seconds = some q' → ReachableF q'
  | wake (q : DynamicQueue) :
      ReachableF q → ReachableF q.wakeUpProcesses

/-- One tick's effect on a single waiter: decrement `remainingTime` by 1. -/
def decTick (p : Process) : Process :=
  { p with remainingTime := p.remainingTime - 1 }

/-- The wait-map entries that survive one tick: each decremented, kept iff
the post-decrement remaining time is positive. -/
def tickSurvivors (l : List (Int × Process)) : List (Int × Process) :=
  l.filterMap (fun e =>
    if (decTick e.2).remainingTime ≤ 0 then none else some (e.1, decTick e.2))

/-- The foreground processes woken by one tick, in wait-map iteration order. -/
def tickWokenF (l : List (Int × Process)) : List Process :=
  l.filterMap (fun e =>
    if (decTick e.2).remainingTime ≤ 0 then
      if (decTick e.2).isForeground then some (decTick e.2) else none
    else none)

/-- The background processes woken by one tick, in wait-map iteration order. -/
def tickWokenB (l : List (Int × Process)) : List Process :=
  l.filterMap (fun e =>
    if (decTick e.2).remainingTime ≤ 0 then
      if (decTick e.2).isForeground then none else some (decTick e.2)
    else none)

/-- The wait-map entries still waiting after `k ≥ 1` ticks: those with
remaining time strictly above `k`, decremented by `k`. -/
def survivorsK (k : Nat) (l : List (Int × Process)) : List (Int × Process) :=
  l.filterMap (fun e =>
    if (k : Int) < e.2.remainingTime then
      some (e.1, { e.2 with remainingTime := e.2.remainingTime - k })
    else none)

/-- The tick on which a waiter with the given remaining time wakes up:
tick `t` wakes it iff `t - 1 < remainingTime ≤ t`, so any remaining time
`≤ 1` (including 0 and negatives) wakes on tick 1. -/
def wakeTickOf (t : Int) : Nat :=
  (max t 1).toNat

/-- Invariant (I2)/(P2): every foreground-list member has
`isForeground = true` and every background-list member has
`isForeground = false`. -/
def ClassCorrect (q : DynamicQueue) : Prop :=
  (∀ p ∈ q.fgProcesses, p.isForeground = true) ∧
  (∀ p ∈ q.bgProcesses, p.isForeground = false)

/-- The wait map is well-formed the way a `std::map<int, shared_ptr<Process>>`
keyed by pid is: keys strictly increasing (iteration order) and each entry's
process carries the key as its id. -/
def WaitWF (q : DynamicQueue) : Prop :=
  q.waitQueue.Pairwise (fun e e' => e.1 < e'.1) ∧
  ∀ e ∈ q.waitQueue, e.2.id = e.1

/-- Invariant (I3)/(P1): the two counters agree with the container sizes. -/
def CountsCorrect (q : DynamicQueue) : Prop :=
  q.processCount =
    (q.fgProcesses.length : Int) + (q.bgProcesses.length : Int)
      + (q.waitQueue.length : Int) ∧
  q.bgCount = (q.bgProcesses.length : Int)

/-- The inductive invariant behind (P1): correct counters, no duplicate id
anywhere in the queue, and wait entries keyed by their process id. -/
def InvF (q : DynamicQueue) : Prop :=
  CountsCorrect q ∧ q.ids.Nodup ∧ ∀ e ∈ q.waitQueue, e.2.id = e.1

/-- The bootstrap queue after `sleep(1, 5)`: the monitor process sits in the
wait map with remaining time 5 and is in neither ready list. -/
def monitorWaiting : DynamicQueue :=
  { fgProcesses := [{ id := 0, isForeground := true, command := "shell" }],
    bgProcesses := [],
    waitQueue := [(1, { id := 1, isForeground := false, command := "monitor",
                        promoted := false, remainingTime := 5 })],
    processCount := 2,
    bgCount := 0 }

/-- The bootstrap queue after `sleep(1, 0)`: a legal sleep with
`seconds = 0` parks the monitor in the wait map with remaining time 0. -/
def monitorWaitingZero : DynamicQueue :=
  { fgProcesses := [{ id := 0, isForeground := true, command := "shell" }],
    bgProcesses := [],
    waitQueue := [(1, { id := 1, isForeground := false, command := "monitor",
                        promoted := false, remainingTime := 0 })],
    processCount := 2,
    bgCount := 0 }

/-- The state reached by `enqueue ⟨1,F,"a"⟩; sleep(1,5); enqueue ⟨1,F,"b"⟩;
sleep(1,7)` — each sleep targeting a pid present in the fg list.  The second
sleep overwrites the wait entry of the first process, losing it. -/
def dupIdState : DynamicQueue :=
  { fgProcesses := [],
    bgProcesses := [],
    waitQueue := [(1, { id := 1, isForeground := true, command := "b",
                        promoted := false, remainingTime := 7 })],
    processCount := 2,
    bgCount := 0 }

/-- A state holding one waiter: process 9 (foreground) with 1 tick left. -/
def roundTripStart : DynamicQueue :=
  { fgProcesses := [],
    bgProcesses := [],
    waitQueue := [(9, { id := 9, isForeground := true, command := "w",
                        promoted := false, remainingTime := 1 })],
    processCount := 1,
    bgCount := 0 }

/-- `roundTripStart` after `enqueue ⟨2,F,"p"⟩; sleep(2, 1)`. -/
def roundTripMid : DynamicQueue :=
  { fgProcesses := [],
    bgProcesses := [],
    waitQueue := [(2, { id := 2, isForeground := true, command := "p",
                        promoted := false, remainingTime := 1 }),
                  (9, { id := 9, isForeground := true, command := "w",
                        promoted := false, remainingTime := 1 })],
    processCount := 2,
    bgCount := 0 }

/-- Two foreground waiters with one tick left each, ids 2 and 3: the state
after `enqueue ⟨2,F,"a"⟩; enqueue ⟨3,F,"b"⟩; sleep(3, 1); sleep(2, 1)`. -/
def twoWaiters : DynamicQueue :=
  { fgProcesses := [],
    bgProcesses := [],
    waitQueue := [(2, { id := 2, isForeground := true, command := "a",
                        promoted := false, remainingTime := 1 }),
                  (3, { id := 3, isForeground := true, command := "b",
                        promoted := false, remainingTime := 1 })],
    processCount := 2,
    bgCount := 0 }

/-! ### Helper lemmas about the tick loop -/

theorem wakeRec_eq (l : List (Int × Process)) :
    wakeRec l = (tickSurvivors l, tickWokenF l, tickWokenB l) := by
  induction l with
  | nil => rfl
  | cons e rest ih =>
    simp only [wakeRec, ih, tickSurvivors, tickWokenF, tickWokenB,
      List.filterMap_cons, decTick]
    by_cases h1 : e.2.remainingTime - 1 ≤ 0
    · by_cases h2 : e.2.isForeground <;> simp [h1, h2]
    · simp [h1]

theorem wakeUpProcesses_eq (q : DynamicQueue) :
    q.wakeUpProcesses =
      { q with waitQueue := tickSurvivors q.waitQueue,
               fgProcesses := q.fgProcesses ++ tickWokenF q.waitQueue,
               bgProcesses := q.bgProcesses ++ tickWokenB q.waitQueue,
               bgCount := q.bgCount + (tickWokenB q.waitQueue).length } := by
  simp [DynamicQueue.wakeUpProcesses, wakeRec_eq]

theorem tickSurvivors_pos {l : List (Int × Process)} {e : Int × Process}
    (h : e ∈ tickSurvivors l) : 0 < e.2.remainingTime := by
  simp only [tickSurvivors, List.mem_filterMap] at h
  obtain ⟨a, -, ha⟩ := h
  by_cases h1 : (decTick a.2).remainingTime ≤ 0
  · simp [h1] at ha
  · simp only [h1, if_false] at ha
    cases ha
    simpa using lt_of_not_le h1

theorem length_buckets (l : List (Int × Process)) :
    (tickSurvivors l).length + (tickWokenF l).length + (tickWokenB l).length
      = l.length := by
  induction l with
  | nil => rfl
  | cons e rest ih =>
    simp only [tickSurvivors, tickWokenF, tickWokenB, List.filterMap_cons] at ih ⊢
    by_cases h1 : (decTick e.2).remainingTime ≤ 0
    · by_cases h2 : (decTick e.2).isForeground <;>
        simp [h1, h2, List.length_cons] <;> omega
    · simp [h1, List.length_cons]
      omega

theorem ticks_succ (n : Nat) (q : DynamicQueue) :
    ticks (n + 1) q = (ticks n q).wakeUpProcesses := by
  induction n generalizing q with
  | zero => rfl
  | succ m ih => rw [ticks, ih]; rfl

/-! ### Helper lemmas about the wait-map insert -/

theorem mem_mapInsert {k : Int} {v : Process} :
    ∀ {l : List (Int × Process)} {e : Int × Process},
      e ∈ mapInsert k v l → e = (k, v) ∨ e ∈ l := by
  intro l
  induction l with
  | nil => intro e h; left; simpa [mapInsert] using h
  | cons e' rest ih =>
    intro e h
    obtain ⟨k', v'⟩ := e'
    simp only [mapInsert] at h
    split_ifs at h with h1 h2
    · rw [List.mem_cons] at h
      rcases h with h | h
      · exact Or.inl h
      · exact Or.inr h
    · rw [List.mem_cons] at h
      rcases h with h | h
      · exact Or.inl h
      · exact Or.inr (List.mem_cons_of_mem _ h)
    · rw [List.mem_cons] at h
      rcases h with h | h
      · exact Or.inr (h ▸ List.mem_cons_self _ _)
      · rcases ih h with h' | h'
        · exact Or.inl h'
        · exact Or.inr (List.mem_cons_of_mem _ h')

theorem length_mapInsert {k : Int} {v : Process} :
    ∀ {l : List (Int × Process)}, k ∉ l.map Prod.fst →
      (mapInsert k v l).length = l.length + 1 := by
  intro l
  induction l with
  | nil => intro; rfl
  | cons e' rest ih =>
    intro h
    obtain ⟨k', v'⟩ := e'
    simp only [List.map_cons, List.mem_cons] at h
    push_neg at h
    simp only [mapInsert]
    split_ifs with h1 h2
    · simp
    · exact absurd h2 h.1
    · simp [ih h.2]

theorem keys_mapInsert_perm {k : Int} {v : Process} :
    ∀ {l : List (Int × Process)}, k ∉ l.map Prod.fst →
      ((mapInsert k v l).map Prod.fst).Perm (k :: l.map Prod.fst) := by
  intro l
  induction l with
  | nil =>
    intro
    simp only [mapInsert, List.map_cons, List.map_nil]
    exact List.Perm.refl _
  | cons e' rest ih =>
    intro h
    obtain ⟨k', v'⟩ := e'
    simp only [List.map_cons, List.mem_cons] at h
    push_neg at h
    simp only [mapInsert]
    split_ifs with h1 h2
    · simp
    · exact absurd h2 h.1
    · simp only [List.map_cons]
      exact (List.Perm.cons k' (ih h.2)).trans (List.Perm.swap k k' _)

theorem pairwise_mapInsert {k : Int} {v : Process} :
    ∀ {l : List (Int × Process)},
      l.Pairwise (fun e e' => e.1 < e'.1) →
      (mapInsert k v l).Pairwise (fun e e' => e.1 < e'.1) := by
  intro l
  induction l with
  | nil => intro; simp [mapInsert]
  | cons e' rest ih =>
    intro h
    obtain ⟨k', v'⟩ := e'
    rw [List.pairwise_cons] at h
    simp only [mapInsert]
    split_ifs with h1 h2
    · refine List.Pairwise.cons ?_ (List.Pairwise.cons h.1 h.2)
      intro e he
      rcases List.mem_cons.1 he with he | he
      · subst he; exact h1
      · exact lt_trans h1 (h.1 e he)
    · subst h2
      exact List.Pairwise.cons h.1 h.2
    · refine List.Pairwise.cons ?_ (ih h.2)
      intro e he
      rcases mem_mapInsert he with he | he
      · subst he
        exact lt_of_le_of_ne (not_lt.1 h1) (Ne.symm h2)
      · exact h.1 e he

/-! ### Claim theorems -/

/-- C4: `tick_wake` decrements every wait entry by exactly 1; entries whose
post-decrement remaining time is ≤ 0 (including those that were 0 or less
before the tick) are removed from wait and appended, in iteration order, at
the tail of their native ready list, `bgCount` growing by the number of
background wake-ups; all other entries stay in wait; `processCount` is
untouched; and on an empty wait map the whole operation is a no-op. -/
theorem tick_wake_spec (q : DynamicQueue) :
    (q.wakeUpProcesses).waitQueue = tickSurvivors q.waitQueue ∧
    (q.wakeUpProcesses).fgProcesses = q.fgProcesses ++ tickWokenF q.waitQueue ∧
    (q.wakeUpProcesses).bgProcesses = q.bgProcesses ++ tickWokenB q.waitQueue ∧
    (q.wakeUpProcesses).bgCount
      = q.bgCount + ((tickWokenB q.waitQueue).length : Int) ∧
    (q.wakeUpProcesses).processCount = q.processCount ∧
    (q.waitQueue = [] → q.wakeUpProcesses = q) := by
  refine ⟨?_, ?_, ?_, ?_, ?_, ?_⟩
  · simp [wakeUpProcesses_eq]
  · simp [wakeUpProcesses_eq]
  · simp [wakeUpProcesses_eq]
  · simp [wakeUpProcesses_eq]
  · simp [wakeUpProcesses_eq]
  · intro h
    cases q with
    | mk fg bg w pc bc =>
      simp only at h
      subst h
      simp [wakeUpProcesses_eq, tickSurvivors, tickWokenF, tickWokenB]

/-- C4 witness: on the bootstrap queue (whose wait map is empty) a tick is
a no-op, by the empty-wait clause of `tick_wake_spec`. -/
theorem tick_wake_spec_witness :
    bootstrapQueue.wakeUpProcesses = bootstrapQueue :=
  (tick_wake_spec bootstrapQueue).2.2.2.2.2 rfl

/-- C5: over its six-command catalogue the shell agent, starting from id 2,
enqueues processes 2–7 in catalogue order, each foreground exactly when its
id is even, and immediately after enqueuing ids 2 and 5 — and no others —
diverts them to the wait queue with `sleep(pid, interval * 2)`; running the
trace from the bootstrap queue indeed leaves 2 and 5 in the wait map with
remaining time `interval * 2`. -/
theorem shellProcess_trace_spec (interval : Int) :
    shellTrace interval =
      [ ShellEvent.enq { id := 2, isForeground := true, command := "alarm clock" },
        ShellEvent.slp 2 (interval * 2),
        ShellEvent.enq { id := 3, isForeground := false, command := "todo list" },
        ShellEvent.enq { id := 4, isForeground := true, command := "email check" },
        ShellEvent.enq { id := 5, isForeground := false, command := "music player" },
        ShellEvent.slp 5 (interval * 2),
        ShellEvent.enq { id := 6, isForeground := true, command := "video player" },
        ShellEvent.enq { id := 7, isForeground := false, command := "web browser" } ] ∧
    runTrace bootstrapQueue (shellTrace interval) = some
      { fgProcesses :=
          [ { id := 0, isForeground := true, command := "shell" },
            { id := 4, isForeground := true, command := "email check" },
            { id := 6, isForeground := true, command := "video player" } ],
        bgProcesses :=
          [ { id := 1, isForeground := false, command := "monitor" },
            { id := 3, isForeground := false, command := "todo list" },
            { id := 7, isForeground := false, command := "web browser" } ],
        waitQueue :=
          [ (2, { id := 2, isForeground := true, command := "alarm clock",
                  promoted := false, remainingTime := interval * 2 }),
            (5, { id := 5, isForeground := false, command := "music player",
                  promoted := false, remainingTime := interval * 2 }) ],
        processCount := 8,
        bgCount := 3 } := by
  constructor
  · rfl
  · rfl

/-- C10: `printQueue` is a pure observer: threading the queue through its
statement sequence returns the queue unchanged, and the emitted text is
exactly the rendering `printQueue` computes. -/
theorem printQueue_frame (q : DynamicQueue) :
    q.printQueueSt.1 = q ∧ q.printQueueSt.2 = q.printQueue := by
  constructor
  · rfl
  · simp [DynamicQueue.printQueueSt, DynamicQueue.printQueue, String.append_assoc]

theorem foldl_emit {α : Type} (g : α → String) :
    ∀ (l : List α) (a : String),
      l.foldl (fun s p => s ++ g p) a = a ++ String.join (l.map g) := by
  intro l
  induction l with
  | nil => intro a; apply String.ext; simp
  | cons x xs ih =>
    intro a
    rw [List.foldl_cons, ih, List.map_cons]
    apply String.ext
    simp

/-- C9: `printQueue` renders exactly the layout of the specification's
format block, `snapshotSpec`: the `Running:` line with `bgCount`, a
separator, the background line in insertion order, the foreground line in
insertion order ending in `(top)`, a separator, and the wait line in map
iteration order, labels being `<id><F|B>[*]`. -/
theorem print_snapshot_spec (q : DynamicQueue) :
    q.printQueue = snapshotSpec q := by
  have h1 : (fun (s : String) (p : Process) => s ++ "[" ++ p.toString ++ "] ")
      = fun (s : String) (p : Process) => s ++ ("[" ++ p.toString ++ "] ") := by
    funext s p
    apply String.ext
    simp
  have h2 : (fun (s : String) (wp : Int × Process) => s ++ "[" ++ wp.2.toString ++ ": "
        ++ ToString.toString wp.2.remainingTime ++ "s] ")
      = fun (s : String) (wp : Int × Process) => s ++ ("[" ++ wp.2.toString ++ ": "
        ++ ToString.toString wp.2.remainingTime ++ "s] ") := by
    funext s wp
    apply String.ext
    simp
  rw [DynamicQueue.printQueue]
  simp only [h1, h2, foldl_emit]
  apply String.ext
  simp [snapshotSpec, Process.toString]

/-- C1 counterexample: pid 1 is in neither ready list of `monitorWaiting`
(it is in the wait map), yet `sleep(1, 3)` does not leave the queue
unchanged — it overwrites the wait entry's remaining time. -/
theorem sleep_notfound_cex :
    bootstrapQueue.simulateSleep 1 5 = some monitorWaiting ∧
    (1 : Int) ∉ monitorWaiting.fgProcesses.map Process.id ∧
    (1 : Int) ∉ monitorWaiting.bgProcesses.map Process.id ∧
    monitorWaiting.simulateSleep 1 3 ≠ some monitorWaiting := by
  refine ⟨by decide, by decide, by decide, by decide⟩

/-- C1 (amended): `sleep(pid, seconds)` for a pid in neither ready list is
not a no-op: if the pid is already a key of the wait map, the call leaves
both ready lists and both counters unchanged but overwrites that entry's
remaining time with `seconds`; if the pid is wholly unknown, the call
dereferences the null pointer `operator[]` just inserted — undefined
behaviour, modelled as `none`. -/
theorem sleep_notfound_amended (q : DynamicQueue) (pid s : Int)
    (hf : pid ∉ q.fgProcesses.map Process.id)
    (hb : pid ∉ q.bgProcesses.map Process.id) :
    (∀ p, mapFind pid q.waitQueue = some p →
      q.simulateSleep pid s = some
        { q with waitQueue := mapInsert pid { p with remainingTime := s } q.waitQueue }) ∧
    (mapFind pid q.waitQueue = none → q.simulateSleep pid s = none) := by
  have hf' : q.fgProcesses.find? (fun p => p.id == pid) = none := by
    rw [List.find?_eq_none]
    intro x hx hc
    exact hf (List.mem_map.2 ⟨x, hx, by simpa using hc⟩)
  have hb' : q.bgProcesses.find? (fun p => p.id == pid) = none := by
    rw [List.find?_eq_none]
    intro x hx hc
    exact hb (List.mem_map.2 ⟨x, hx, by simpa using hc⟩)
  constructor
  · intro p hp
    simp [DynamicQueue.simulateSleep, hf', hb', hp]
  · intro hw
    simp [DynamicQueue.simulateSleep, hf', hb', hw]

/-- C1 witness: on `monitorWaiting`, pid 1 is in neither ready list and is
a wait-map key, so `sleep(1, 3)` rewrites that entry's remaining time to 3. -/
theorem sleep_notfound_amended_witness :
    monitorWaiting.simulateSleep 1 3 = some
      { monitorWaiting with waitQueue :=
          (mapInsert 1 ({ id := 1, isForeground := false, command := "monitor",
                          promoted := false, remainingTime := 3 } : Process)
            monitorWaiting.waitQueue) } :=
  (sleep_notfound_amended monitorWaiting 1 3 (by decide) (by decide)).1
    { id := 1, isForeground := false, command := "monitor",
      promoted := false, remainingTime := 5 } (by decide)

/-- C3 counterexample: immediately after the sleep operation
`sleep(1, 0)` — which the spec itself permits — the wait map holds an entry
with remaining time 0, so not every wait entry has remaining time > 0. -/
theorem sleep_positive_cex :
    bootstrapQueue.simulateSleep 1 0 = some monitorWaitingZero ∧
    ¬ (∀ e ∈ monitorWaitingZero.waitQueue, 0 < e.2.remainingTime) := by
  refine ⟨by decide, by decide⟩

/-- C3 (amended): after a sleep with `seconds ≥ 1` on a state whose wait
entries all have positive remaining time, every wait entry still has
positive remaining time; and a remaining time ≤ 0 is only transient inside
a tick-wake: after any `wakeUpProcesses` call every entry still in the wait
map has remaining time > 0. -/
theorem sleep_positive_amended (q q' : DynamicQueue) (pid s : Int)
    (hpos : ∀ e ∈ q.waitQueue, 0 < e.2.remainingTime)
    (hs : 1 ≤ s)
    (hsleep : q.simulateSleep pid s = some q') :
    (∀ e ∈ q'.waitQueue, 0 < e.2.remainingTime) ∧
    (∀ r : DynamicQueue, ∀ e ∈ r.wakeUpProcesses.waitQueue,
      0 < e.2.remainingTime) := by
  constructor
  · intro e he
    have hwq : ∃ p : Process,
        q'.waitQueue = mapInsert pid { p with remainingTime := s } q.waitQueue := by
      simp only [DynamicQueue.simulateSleep] at hsleep
      split at hsleep
      · cases hsleep
        exact ⟨_, rfl⟩
      · split at hsleep
        · cases hsleep
          exact ⟨_, rfl⟩
        · split at hsleep
          · cases hsleep
            exact ⟨_, rfl⟩
          · cases hsleep
    obtain ⟨p, hp⟩ := hwq
    rw [hp] at he
    rcases mem_mapInsert he with h | h
    · subst h
      simpa using hs
    · exact hpos e h
  · intro r e he
    simp only [wakeUpProcesses_eq] at he
    exact tickSurvivors_pos he

/-- C3 witness: sleeping the shell process for 2 seconds from the bootstrap
state (whose wait map is empty) leaves its wait entry positive. -/
theorem sleep_positive_amended_witness :
    0 < ({ id := 0, isForeground := true, command := "shell",
           promoted := false, remainingTime := 2 } : Process).remainingTime :=
  (sleep_positive_amended bootstrapQueue
    { fgProcesses := [],
      bgProcesses := [{ id := 1, isForeground := false, command := "monitor" }],
      waitQueue := [(0, { id := 0, isForeground := true, command := "shell",
                          promoted := false, remainingTime := 2 })],
      processCount := 2,
      bgCount := 1 } 0 2 (by decide) (by decide) (by decide)).1
    (0, { id := 0, isForeground := true, command := "shell",
          promoted := false, remainingTime := 2 }) (by decide)

/-! ### Case analysis for a defined sleep, and wake-up class lemmas -/

theorem simulateSleep_cases {q q' : DynamicQueue} {pid s : Int}
    (h : q.simulateSleep pid s = some q') :
    (∃ p, q.fgProcesses.find? (fun x => x.id == pid) = some p ∧
      q' = { q with fgProcesses := q.fgProcesses.eraseP (fun x => x.id == pid),
                    waitQueue := mapInsert pid { p with remainingTime := s } q.waitQueue }) ∨
    (∃ p, q.fgProcesses.find? (fun x => x.id == pid) = none ∧
      q.bgProcesses.find? (fun x => x.id == pid) = some p ∧
      q' = { q with bgProcesses := q.bgProcesses.eraseP (fun x => x.id == pid),
                    bgCount := q.bgCount - 1,
                    waitQueue := mapInsert pid { p with remainingTime := s } q.waitQueue }) ∨
    (∃ p, q.fgProcesses.find? (fun x => x.id == pid) = none ∧
      q.bgProcesses.find? (fun x => x.id == pid) = none ∧
      mapFind pid q.waitQueue = some p ∧
      q' = { q with waitQueue := mapInsert pid { p with remainingTime := s } q.waitQueue }) := by
  simp only [DynamicQueue.simulateSleep] at h
  split at h
  · next p hp =>
      cases h
      exact Or.inl ⟨p, hp, rfl⟩
  · next hfg =>
      split at h
      · next p hp =>
          cases h
          exact Or.inr (Or.inl ⟨p, hfg, hp, rfl⟩)
      · next hbg =>
          split at h
          · next p hp =>
              cases h
              exact Or.inr (Or.inr ⟨p, hfg, hbg, hp, rfl⟩)
          · cases h

theorem tickWokenF_fg {l : List (Int × Process)} {p : Process}
    (h : p ∈ tickWokenF l) : p.isForeground = true := by
  simp only [tickWokenF, List.mem_filterMap] at h
  obtain ⟨e, -, he⟩ := h
  split_ifs at he with h1 h2
  cases he
  simpa [decTick] using h2

theorem tickWokenB_bg {l : List (Int × Process)} {p : Process}
    (h : p ∈ tickWokenB l) : p.isForeground = false := by
  simp only [tickWokenB, List.mem_filterMap] at h
  obtain ⟨e, -, he⟩ := h
  split_ifs at he with h1 h2
  cases he
  simpa [decTick] using h2

theorem classCorrect_enqueue (q : DynamicQueue) (p : Process)
    (h : ClassCorrect q) : ClassCorrect (q.enqueue p) := by
  by_cases hp : p.isForeground = true
  · rw [DynamicQueue.enqueue, if_pos hp]
    refine ⟨?_, h.2⟩
    intro x hx
    rcases List.mem_append.1 hx with hx | hx
    · exact h.1 x hx
    · rw [List.mem_singleton] at hx
      subst hx
      exact hp
  · rw [DynamicQueue.enqueue, if_neg hp]
    refine ⟨h.1, ?_⟩
    intro x hx
    rcases List.mem_append.1 hx with hx | hx
    · exact h.2 x hx
    · rw [List.mem_singleton] at hx
      subst hx
      simpa using hp

theorem classCorrect_sleep {q q' : DynamicQueue} {pid s : Int}
    (h : ClassCorrect q) (hs : q.simulateSleep pid s = some q') :
    ClassCorrect q' := by
  rcases simulateSleep_cases hs with ⟨p, hp, rfl⟩ | ⟨p, hf, hp, rfl⟩ | ⟨p, hf, hb, hp, rfl⟩
  · exact ⟨fun x hx => h.1 x ((List.eraseP_sublist _).subset hx), h.2⟩
  · exact ⟨h.1, fun x hx => h.2 x ((List.eraseP_sublist _).subset hx)⟩
  · exact h

theorem classCorrect_wake (q : DynamicQueue) (h : ClassCorrect q) :
    ClassCorrect q.wakeUpProcesses := by
  rw [wakeUpProcesses_eq]
  refine ⟨?_, ?_⟩
  · intro x hx
    rcases List.mem_append.1 hx with hx | hx
    · exact h.1 x hx
    · exact tickWokenF_fg hx
  · intro x hx
    rcases List.mem_append.1 hx with hx | hx
    · exact h.2 x hx
    · exact tickWokenB_bg hx

/-- C8: in every reachable state every `fgProcesses` member has
`isForeground = true` and every `bgProcesses` member has
`isForeground = false`; each of `enqueue`, a defined `sleep` and
`tick_wake` preserves this from any class-correct state; and a tick returns
each woken process to the list matching its own flag (the foreground batch
is all-foreground, the background batch all-background). -/
theorem class_invariant :
    (∀ q : DynamicQueue, Reachable q → ClassCorrect q) ∧
    (∀ (q : DynamicQueue) (p : Process),
      ClassCorrect q → ClassCorrect (q.enqueue p)) ∧
    (∀ (q q' : DynamicQueue) (pid s : Int),
      ClassCorrect q → q.simulateSleep pid s = some q' → ClassCorrect q') ∧
    (∀ q : DynamicQueue, ClassCorrect q → ClassCorrect q.wakeUpProcesses) ∧
    (∀ (q : DynamicQueue) (p : Process),
      p ∈ tickWokenF q.waitQueue → p.isForeground = true) ∧
    (∀ (q : DynamicQueue) (p : Process),
      p ∈ tickWokenB q.waitQueue → p.isForeground = false) := by
  refine ⟨?_, fun q p h => classCorrect_enqueue q p h,
    fun q q' pid s h hs => classCorrect_sleep h hs,
    fun q h => classCorrect_wake q h,
    fun q p h => tickWokenF_fg h,
    fun q p h => tickWokenB_bg h⟩
  intro q hq
  induction hq with
  | init => exact ⟨by simp, by simp⟩
  | enqueue q p hq ih => exact classCorrect_enqueue q p ih
  | sleep q pid s q' hq hs ih => exact classCorrect_sleep ih hs
  | wake q hq ih => exact classCorrect_wake q ih

/-- C8 witness: the bootstrap queue is reachable (two enqueues from the
empty queue), so it is class-correct. -/
theorem class_invariant_witness : ClassCorrect bootstrapQueue :=
  class_invariant.1 bootstrapQueue
    (Reachable.enqueue _ _ (Reachable.enqueue _ _ Reachable.init))

/-! ### Id-multiset bookkeeping for the counting invariant -/

theorem perm_singleton_left {α : Type} (A B C : List α) (x : α) :
    (((A ++ [x]) ++ B) ++ C).Perm (x :: ((A ++ B) ++ C)) := by
  have h1 : ((A ++ [x]) ++ B) ++ C = A ++ x :: (B ++ C) := by simp
  have h2 : x :: ((A ++ B) ++ C) = x :: (A ++ (B ++ C)) := by simp
  rw [h1, h2]
  exact List.perm_middle

theorem perm_singleton_mid {α : Type} (A B C : List α) (x : α) :
    ((A ++ (B ++ [x])) ++ C).Perm (x :: ((A ++ B) ++ C)) := by
  have h1 : (A ++ (B ++ [x])) ++ C = (A ++ B) ++ x :: C := by simp
  rw [h1]
  exact List.perm_middle

theorem ids_enqueue_perm (q : DynamicQueue) (p : Process) :
    ((q.enqueue p).ids).Perm (p.id :: q.ids) := by
  by_cases hp : p.isForeground = true
  · rw [DynamicQueue.enqueue, if_pos hp]
    simp only [DynamicQueue.ids, List.map_append, List.map_cons, List.map_nil]
    exact perm_singleton_left _ _ _ _
  · rw [DynamicQueue.enqueue, if_neg hp]
    simp only [DynamicQueue.ids, List.map_append, List.map_cons, List.map_nil]
    exact perm_singleton_mid _ _ _ _

theorem tickSurvivors_cons_stay {e : Int × Process} (rest : List (Int × Process))
    (h : ¬ (decTick e.2).remainingTime ≤ 0) :
    tickSurvivors (e :: rest) = (e.1, decTick e.2) :: tickSurvivors rest := by
  simp [tickSurvivors, List.filterMap_cons, h]

theorem tickSurvivors_cons_wake {e : Int × Process} (rest : List (Int × Process))
    (h : (decTick e.2).remainingTime ≤ 0) :
    tickSurvivors (e :: rest) = tickSurvivors rest := by
  simp [tickSurvivors, List.filterMap_cons, h]

theorem tickWokenF_cons_stay {e : Int × Process} (rest : List (Int × Process))
    (h : ¬ (decTick e.2).remainingTime ≤ 0) :
    tickWokenF (e :: rest) = tickWokenF rest := by
  simp [tickWokenF, List.filterMap_cons, h]

theorem tickWokenF_cons_wakeF {e : Int × Process} (rest : List (Int × Process))
    (h : (decTick e.2).remainingTime ≤ 0) (hf : (decTick e.2).isForeground = true) :
    tickWokenF (e :: rest) = decTick e.2 :: tickWokenF rest := by
  simp [tickWokenF, List.filterMap_cons, h, hf]

theorem tickWokenF_cons_wakeB {e : Int × Process} (rest : List (Int × Process))
    (h : (decTick e.2).remainingTime ≤ 0) (hf : (decTick e.2).isForeground = false) :
    tickWokenF (e :: rest) = tickWokenF rest := by
  simp [tickWokenF, List.filterMap_cons, h, hf]

theorem tickWokenB_cons_stay {e : Int × Process} (rest : List (Int × Process))
    (h : ¬ (decTick e.2).remainingTime ≤ 0) :
    tickWokenB (e :: rest) = tickWokenB rest := by
  simp [tickWokenB, List.filterMap_cons, h]

theorem tickWokenB_cons_wakeF {e : Int × Process} (rest : List (Int × Process))
    (h : (decTick e.2).remainingTime ≤ 0) (hf : (decTick e.2).isForeground = true) :
    tickWokenB (e :: rest) = tickWokenB rest := by
  simp [tickWokenB, List.filterMap_cons, h, hf]

theorem tickWokenB_cons_wakeB {e : Int × Process} (rest : List (Int × Process))
    (h : (decTick e.2).remainingTime ≤ 0) (hf : (decTick e.2).isForeground = false) :
    tickWokenB (e :: rest) = decTick e.2 :: tickWokenB rest := by
  simp [tickWokenB, List.filterMap_cons, h, hf]

theorem wake_keys_perm :
    ∀ (l : List (Int × Process)), (∀ e ∈ l, e.2.id = e.1) →
      (l.map Prod.fst).Perm
        (((tickSurvivors l).map Prod.fst ++ (tickWokenF l).map Process.id)
          ++ (tickWokenB l).map Process.id) := by
  intro l
  induction l with
  | nil => intro; simp [tickSurvivors, tickWokenF, tickWokenB]
  | cons e rest ih =>
    intro hk
    have hid : (decTick e.2).id = e.1 := by
      have := hk e (List.mem_cons_self _ _)
      simpa [decTick] using this
    have ih' := ih (fun x hx => hk x (List.mem_cons_of_mem _ hx))
    rw [← Multiset.coe_eq_coe] at ih'
    simp only [← Multiset.coe_add, ← Multiset.cons_coe,
      ← Multiset.singleton_add] at ih'
    by_cases h1 : (decTick e.2).remainingTime ≤ 0
    · by_cases h2 : (decTick e.2).isForeground = true
      · rw [List.map_cons, tickSurvivors_cons_wake rest h1,
          tickWokenF_cons_wakeF rest h1 h2, tickWokenB_cons_wakeF rest h1 h2,
          List.map_cons, hid]
        rw [← Multiset.coe_eq_coe]
        simp only [← Multiset.coe_add, ← Multiset.cons_coe,
          ← Multiset.singleton_add]
        rw [ih']
        abel
      · have h2' : (decTick e.2).isForeground = false := by
          simpa using h2
        rw [List.map_cons, tickSurvivors_cons_wake rest h1,
          tickWokenF_cons_wakeB rest h1 h2', tickWokenB_cons_wakeB rest h1 h2',
          List.map_cons, hid]
        rw [← Multiset.coe_eq_coe]
        simp only [← Multiset.coe_add, ← Multiset.cons_coe,
          ← Multiset.singleton_add]
        rw [ih']
        abel
    · rw [List.map_cons, tickSurvivors_cons_stay rest h1,
        tickWokenF_cons_stay rest h1, tickWokenB_cons_stay rest h1,
        List.map_cons]
      rw [← Multiset.coe_eq_coe]
      simp only [← Multiset.coe_add, ← Multiset.cons_coe,
        ← Multiset.singleton_add]
      rw [ih']
      abel

theorem perm_erase_insert_left {α : Type} (l1 l2 B K K' : List α) (x : α)
    (hK : K'.Perm (x :: K)) :
    (((l1 ++ l2) ++ B) ++ K').Perm (((l1 ++ x :: l2) ++ B) ++ K) := by
  rw [← Multiset.coe_eq_coe] at hK ⊢
  simp only [← Multiset.coe_add, ← Multiset.cons_coe,
    ← Multiset.singleton_add] at hK ⊢
  rw [hK]
  abel

theorem perm_erase_insert_mid {α : Type} (A l1 l2 K K' : List α) (x : α)
    (hK : K'.Perm (x :: K)) :
    ((A ++ (l1 ++ l2)) ++ K').Perm ((A ++ (l1 ++ x :: l2)) ++ K) := by
  rw [← Multiset.coe_eq_coe] at hK ⊢
  simp only [← Multiset.coe_add, ← Multiset.cons_coe,
    ← Multiset.singleton_add] at hK ⊢
  rw [hK]
  abel

theorem perm_wake_ids {α : Type} (mA mWF mB mWB mS K : List α)
    (hK : K.Perm ((mS ++ mWF) ++ mWB)) :
    (((mA ++ mWF) ++ (mB ++ mWB)) ++ mS).Perm ((mA ++ mB) ++ K) := by
  rw [← Multiset.coe_eq_coe] at hK ⊢
  simp only [← Multiset.coe_add, ← Multiset.cons_coe,
    ← Multiset.singleton_add] at hK ⊢
  rw [hK]
  abel

theorem tickSurvivors_keys {l : List (Int × Process)}
    (hk : ∀ e ∈ l, e.2.id = e.1) :
    ∀ e ∈ tickSurvivors l, e.2.id = e.1 := by
  intro e he
  simp only [tickSurvivors, List.mem_filterMap] at he
  obtain ⟨a, ha, hfa⟩ := he
  split_ifs at hfa
  cases hfa
  simpa [decTick] using hk a ha

theorem invF_enqueue (q : DynamicQueue) (p : Process)
    (h : InvF q) (hfresh : p.id ∉ q.ids) : InvF (q.enqueue p) := by
  obtain ⟨⟨hc1, hc2⟩, hnd, hwk⟩ := h
  refine ⟨⟨?_, ?_⟩, ?_, ?_⟩
  · by_cases hp : p.isForeground = true <;>
      simp [DynamicQueue.enqueue, hp] <;>
      push_cast <;> omega
  · by_cases hp : p.isForeground = true <;>
      simp [DynamicQueue.enqueue, hp] <;>
      push_cast <;> omega
  · exact ((ids_enqueue_perm q p).nodup_iff).2 (List.nodup_cons.2 ⟨hfresh, hnd⟩)
  · by_cases hp : p.isForeground = true <;>
      simp only [DynamicQueue.enqueue, hp, Bool.false_eq_true, if_true, if_false] <;>
      exact hwk

theorem invF_sleep {q q' : DynamicQueue} {pid s : Int}
    (h : InvF q)
    (hmem : pid ∈ q.fgProcesses.map Process.id ∨ pid ∈ q.bgProcesses.map Process.id)
    (hs : q.simulateSleep pid s = some q') : InvF q' := by
  obtain ⟨⟨hc1, hc2⟩, hnd, hwk⟩ := h
  have hnd' := hnd
  simp only [DynamicQueue.ids] at hnd'
  have hnotw : pid ∉ q.waitQueue.map Prod.fst := by
    intro hin
    have hdisj := (List.nodup_append.1 hnd').2.2
    exact hdisj (List.mem_append.2 hmem) hin
  have hkeys := keys_mapInsert_perm
    (k := pid) (v := ⟨pid, true, "", false, s⟩) hnotw
  rcases simulateSleep_cases hs with ⟨p, hp, rfl⟩ | ⟨p, hf, hp, rfl⟩ | ⟨p, hf, hb, hp, rfl⟩
  · have hpmem : p ∈ q.fgProcesses := List.mem_of_find?_eq_some hp
    have hpt := List.find?_some hp
    have hpid : p.id = pid := by simpa using hpt
    have hfg_len : (q.fgProcesses.eraseP (fun x => x.id == pid)).length
        = q.fgProcesses.length - 1 := List.length_eraseP_of_mem hpmem hpt
    have hfg_pos : 0 < q.fgProcesses.length := List.length_pos_of_mem hpmem
    refine ⟨⟨?_, ?_⟩, ?_, ?_⟩
    · simp only [hfg_len, length_mapInsert hnotw]
      rw [hc1]
      push_cast
      omega
    · exact hc2
    · obtain ⟨a, l1, l2, hl1, hpa, hdec, hers⟩ :=
        List.exists_of_eraseP (p := fun x => x.id == pid) hpmem hpt
      have haid : a.id = pid := by simpa using hpa
      refine (List.Perm.nodup_iff ?_).2 hnd
      simp only [DynamicQueue.ids, hers]
      conv_rhs => rw [hdec]
      simp only [List.map_append, List.map_cons]
      rw [haid]
      exact perm_erase_insert_left _ _ _ _ _ pid
        (keys_mapInsert_perm hnotw)
    · intro e he
      rcases mem_mapInsert he with he | he
      · subst he
        simpa using hpid
      · exact hwk e he
  · have hpmem : p ∈ q.bgProcesses := List.mem_of_find?_eq_some hp
    have hpt := List.find?_some hp
    have hpid : p.id = pid := by simpa using hpt
    have hbg_len : (q.bgProcesses.eraseP (fun x => x.id == pid)).length
        = q.bgProcesses.length - 1 := List.length_eraseP_of_mem hpmem hpt
    have hbg_pos : 0 < q.bgProcesses.length := List.length_pos_of_mem hpmem
    refine ⟨⟨?_, ?_⟩, ?_, ?_⟩
    · simp only [hbg_len, length_mapInsert hnotw]
      rw [hc1]
      push_cast
      omega
    · simp only [hbg_len]
      rw [hc2]
      push_cast
      omega
    · obtain ⟨a, l1, l2, hl1, hpa, hdec, hers⟩ :=
        List.exists_of_eraseP (p := fun x => x.id == pid) hpmem hpt
      have haid : a.id = pid := by simpa using hpa
      refine (List.Perm.nodup_iff ?_).2 hnd
      simp only [DynamicQueue.ids, hers]
      conv_rhs => rw [hdec]
      simp only [List.map_append, List.map_cons]
      rw [haid]
      exact perm_erase_insert_mid _ _ _ _ _ pid
        (keys_mapInsert_perm hnotw)
    · intro e he
      rcases mem_mapInsert he with he | he
      · subst he
        simpa using hpid
      · exact hwk e he
  · exfalso
    rcases hmem with hmem | hmem
    · obtain ⟨x, hx, hxid⟩ := List.mem_map.1 hmem
      exact absurd (by simpa using hxid) (by simpa using List.find?_eq_none.1 hf x hx)
    · obtain ⟨x, hx, hxid⟩ := List.mem_map.1 hmem
      exact absurd (by simpa using hxid) (by simpa using List.find?_eq_none.1 hb x hx)

theorem invF_wake (q : DynamicQueue) (h : InvF q) : InvF q.wakeUpProcesses := by
  obtain ⟨⟨hc1, hc2⟩, hnd, hwk⟩ := h
  have hbuck := length_buckets q.waitQueue
  rw [wakeUpProcesses_eq]
  refine ⟨⟨?_, ?_⟩, ?_, ?_⟩
  · simp only [List.length_append]
    rw [hc1]
    push_cast
    omega
  · simp only [List.length_append]
    rw [hc2]
    push_cast
    omega
  · refine (List.Perm.nodup_iff ?_).2 hnd
    simp only [DynamicQueue.ids, List.map_append]
    exact perm_wake_ids _ _ _ _ _ _ (wake_keys_perm q.waitQueue hwk)
  · exact tickSurvivors_keys hwk

theorem reachableF_inv : ∀ q : DynamicQueue, ReachableF q → InvF q := by
  intro q h
  induction h with
  | init => exact ⟨⟨by decide, by decide⟩, by decide, by decide⟩
  | enqueue q p hq hfresh ih => exact invF_enqueue q p ih hfresh
  | sleep q pid s q' hq hmem hs ih => exact invF_sleep ih hmem hs
  | wake q hq ih => exact invF_wake q ih

/-- C2 counterexample: a state reachable from the empty queue by enqueues
and sleeps that each target a pid present in a ready list, in which
`process_count = 2` but `|fg| + |bg| + |wait| = 1`: a duplicate-id enqueue
makes the wait-map assignment in `simulateSleep` overwrite an entry. -/
theorem counts_invariant_cex :
    ReachableS dupIdState ∧
    dupIdState.processCount ≠
      (dupIdState.fgProcesses.length : Int) + dupIdState.bgProcesses.length
        + dupIdState.waitQueue.length := by
  constructor
  · have h1 : ReachableS (DynamicQueue.enqueue {}
        { id := 1, isForeground := true, command := "a" }) :=
      ReachableS.enqueue _ _ ReachableS.init
    have h2 : ReachableS
        ({ fgProcesses := [],
           bgProcesses := [],
           waitQueue := [(1, { id := 1, isForeground := true, command := "a",
                               promoted := false, remainingTime := 5 })],
           processCount := 1,
           bgCount := 0 } : DynamicQueue) :=
      ReachableS.sleep _ 1 5 _ h1 (by decide) (by decide)
    have h3 := ReachableS.enqueue _
      ({ id := 1, isForeground := true, command := "b" } : Process) h2
    exact ReachableS.sleep _ 1 7 dupIdState h3 (by decide) (by decide)
  · decide

/-- C2 (amended): in every state reachable from the empty queue by
enqueues of processes whose id is not already held by the queue, sleeps
targeting a pid present in a ready list, and tick-wakes, `process_count`
equals `|fg| + |bg| + |wait|` and `bg_count` equals `|bg|`. -/
theorem counts_invariant (q : DynamicQueue) (h : ReachableF q) :
    q.processCount =
      (q.fgProcesses.length : Int) + q.bgProcesses.length
        + q.waitQueue.length ∧
    q.bgCount = (q.bgProcesses.length : Int) :=
  (reachableF_inv q h).1

/-- C2 witness: the bootstrap queue is reachable with fresh ids, and its
counters match its container sizes. -/
theorem counts_invariant_witness :
    bootstrapQueue.processCount =
      (bootstrapQueue.fgProcesses.length : Int)
        + bootstrapQueue.bgProcesses.length + bootstrapQueue.waitQueue.length ∧
    bootstrapQueue.bgCount = (bootstrapQueue.bgProcesses.length : Int) :=
  counts_invariant bootstrapQueue
    (ReachableF.enqueue _ _
      (ReachableF.enqueue _ _ ReachableF.init (by decide)) (by decide))

/-! ### Single-waiter tick evolution -/

theorem wake_single_stay (q : DynamicQueue) (k : Int) (w : Process)
    (hq : q.waitQueue = [(k, w)]) (h2 : 2 ≤ w.remainingTime) :
    q.wakeUpProcesses = { q with waitQueue := [(k, decTick w)] } := by
  have hstay : ¬ (decTick w).remainingTime ≤ 0 := by
    simp only [decTick]
    omega
  rw [wakeUpProcesses_eq, hq]
  rw [show ([(k, w)] : List (Int × Process)) = (k, w) :: [] from rfl]
  rw [tickSurvivors_cons_stay _ hstay, tickWokenF_cons_stay _ hstay,
    tickWokenB_cons_stay _ hstay]
  simp [tickSurvivors, tickWokenF, tickWokenB]

theorem wake_single_last (q : DynamicQueue) (k : Int) (w : Process)
    (hq : q.waitQueue = [(k, w)]) (h1 : w.remainingTime ≤ 1) :
    q.wakeUpProcesses =
      if w.isForeground then
        { q with waitQueue := [],
                 fgProcesses := q.fgProcesses ++ [decTick w] }
      else
        { q with waitQueue := [],
                 bgProcesses := q.bgProcesses ++ [decTick w],
                 bgCount := q.bgCount + 1 } := by
  have hgo : (decTick w).remainingTime ≤ 0 := by
    simp only [decTick]
    omega
  rw [wakeUpProcesses_eq, hq]
  rw [show ([(k, w)] : List (Int × Process)) = (k, w) :: [] from rfl]
  by_cases hf : w.isForeground = true
  · rw [tickSurvivors_cons_wake _ hgo,
      tickWokenF_cons_wakeF _ hgo (by simpa [decTick] using hf),
      tickWokenB_cons_wakeF _ hgo (by simpa [decTick] using hf), if_pos hf]
    simp [tickSurvivors, tickWokenF, tickWokenB]
  · have hf' : w.isForeground = false := by simpa using hf
    rw [tickSurvivors_cons_wake _ hgo,
      tickWokenF_cons_wakeB _ hgo (by simpa [decTick] using hf'),
      tickWokenB_cons_wakeB _ hgo (by simpa [decTick] using hf'), if_neg hf]
    simp [tickSurvivors, tickWokenF, tickWokenB]

theorem ticks_single_waiter :
    ∀ (n : Nat) (q : DynamicQueue) (k : Int) (w : Process),
      q.waitQueue = [(k, w)] → w.remainingTime = (n : Int) + 1 →
      ticks (n + 1) q =
        if w.isForeground then
          { q with waitQueue := [],
                   fgProcesses := q.fgProcesses ++ [{ w with remainingTime := 0 }] }
        else
          { q with waitQueue := [],
                   bgProcesses := q.bgProcesses ++ [{ w with remainingTime := 0 }],
                   bgCount := q.bgCount + 1 } := by
  intro n
  induction n with
  | zero =>
    intro q k w hq hrt
    have hrt1 : w.remainingTime = 1 := by
      push_cast at hrt
      omega
    have hdec : decTick w = { w with remainingTime := 0 } := by
      simp [decTick, hrt1]
    have : ticks 1 q = q.wakeUpProcesses := rfl
    rw [this, wake_single_last q k w hq (by omega), hdec]
  | succ n ih =>
    intro q k w hq hrt
    have h2 : 2 ≤ w.remainingTime := by
      push_cast at hrt
      omega
    have hstep : ticks (n + 1 + 1) q = ticks (n + 1) q.wakeUpProcesses := rfl
    rw [hstep, wake_single_stay q k w hq h2]
    have hrec := ih { q with waitQueue := [(k, decTick w)] } k (decTick w)
      (by simp) (by simp only [decTick]; push_cast at hrt ⊢; omega)
    rw [hrec]
    simp [decTick]

theorem find?_append_of_forall_false {α : Type} {f : α → Bool} :
    ∀ {l₁ : List α} (l₂ : List α), (∀ x ∈ l₁, f x = false) →
      (l₁ ++ l₂).find? f = l₂.find? f := by
  intro l₁
  induction l₁ with
  | nil => intro l₂ _; rfl
  | cons a rest ih =>
    intro l₂ h
    rw [List.cons_append, List.find?_cons_of_neg _ (by simp [h a (List.mem_cons_self _ _)]),
      ih l₂ (fun x hx => h x (List.mem_cons_of_mem _ hx))]

/-- C7 counterexample: from the reachable state `roundTripStart` (which
does not contain pid 2 but holds another waiter), `enqueue p; sleep(2, 1);
1 × tick_wake` yields a state whose wait map is empty, while `enqueue p`
alone leaves the other waiter in the wait map: the two states differ in the
wait map itself, not merely in p's position in its class list. -/
theorem round_trip_cex :
    runTrace {} [ShellEvent.enq { id := 9, isForeground := true, command := "w" },
      ShellEvent.slp 9 1] = some roundTripStart ∧
    runTrace roundTripStart
      [ShellEvent.enq { id := 2, isForeground := true, command := "p" },
       ShellEvent.slp 2 1] = some roundTripMid ∧
    (ticks 1 roundTripMid).waitQueue ≠
      (roundTripStart.enqueue
        { id := 2, isForeground := true, command := "p" }).waitQueue := by
  refine ⟨by decide, by decide, by decide⟩

/-- C7 (amended): for a process `p` with `remaining_time = 0` (as every
process the program creates) and any `s ≥ 1`, starting from a state whose
wait map is empty and that does not contain `p.id`: `enqueue p`, then
`sleep(p.id, s)` (which succeeds), then `s` tick-wakes, yields exactly the
state of `enqueue p` alone — `p` back at the tail of its class list. -/
theorem round_trip (q : DynamicQueue) (p : Process) (s : Nat)
    (hs : 1 ≤ s) (hrt : p.remainingTime = 0)
    (hwait : q.waitQueue = []) (hfresh : p.id ∉ q.ids) :
    ∃ mid, (q.enqueue p).simulateSleep p.id (s : Int) = some mid ∧
      ticks s mid = q.enqueue p := by
  obtain ⟨n, rfl⟩ : ∃ n, s = n + 1 := ⟨s - 1, by omega⟩
  have hnf : ∀ x ∈ q.fgProcesses, (x.id == p.id) = false := by
    intro x hx
    have hne : x.id ≠ p.id := by
      intro hc
      apply hfresh
      have : p.id ∈ q.fgProcesses.map Process.id := List.mem_map.2 ⟨x, hx, hc⟩
      simp only [DynamicQueue.ids, List.mem_append]
      exact Or.inl (Or.inl this)
    simpa using hne
  have hnb : ∀ x ∈ q.bgProcesses, (x.id == p.id) = false := by
    intro x hx
    have hne : x.id ≠ p.id := by
      intro hc
      apply hfresh
      have : p.id ∈ q.bgProcesses.map Process.id := List.mem_map.2 ⟨x, hx, hc⟩
      simp only [DynamicQueue.ids, List.mem_append]
      exact Or.inl (Or.inr this)
    simpa using hne
  obtain ⟨pid0, pf0, pcmd0, pprom0, prt0⟩ := p
  simp only at hrt hnf hnb
  subst hrt
  by_cases hp : pf0 = true
  · subst hp
    have hfind : (q.fgProcesses
        ++ [({ id := pid0, isForeground := true, command := pcmd0,
               promoted := pprom0, remainingTime := 0 } : Process)]).find?
        (fun x => x.id == pid0) = some
          { id := pid0, isForeground := true, command := pcmd0,
            promoted := pprom0, remainingTime := 0 } := by
      rw [find?_append_of_forall_false _ hnf]
      simp
    have herase : (q.fgProcesses
        ++ [({ id := pid0, isForeground := true, command := pcmd0,
               promoted := pprom0, remainingTime := 0 } : Process)]).eraseP
        (fun x => x.id == pid0) = q.fgProcesses := by
      rw [List.eraseP_append_right _ (by intro b hb; simp [hnf b hb])]
      simp [List.eraseP_cons]
    refine ⟨{ q with
        waitQueue := [(pid0,
          { id := pid0, isForeground := true, command := pcmd0,
            promoted := pprom0, remainingTime := ((n + 1 : Nat) : Int) })],
        processCount := q.processCount + 1 }, ?_, ?_⟩
    · rw [DynamicQueue.enqueue]
      simp only [if_true]
      simp [DynamicQueue.simulateSleep, hfind, herase, hwait, mapInsert]
    · have hts := ticks_single_waiter n
        ({ q with
            waitQueue := [(pid0,
              { id := pid0, isForeground := true, command := pcmd0,
                promoted := pprom0, remainingTime := ((n + 1 : Nat) : Int) })],
            processCount := q.processCount + 1 } : DynamicQueue)
        pid0
        ({ id := pid0, isForeground := true, command := pcmd0,
           promoted := pprom0, remainingTime := ((n + 1 : Nat) : Int) } : Process)
        rfl (by push_cast; ring)
      rw [hts]
      rw [DynamicQueue.enqueue]
      simp [hwait]
  · have hp' : pf0 = false := by simpa using hp
    subst hp'
    have hfind : (q.bgProcesses
        ++ [({ id := pid0, isForeground := false, command := pcmd0,
               promoted := pprom0, remainingTime := 0 } : Process)]).find?
        (fun x => x.id == pid0) = some
          { id := pid0, isForeground := false, command := pcmd0,
            promoted := pprom0, remainingTime := 0 } := by
      rw [find?_append_of_forall_false _ hnb]
      simp
    have herase : (q.bgProcesses
        ++ [({ id := pid0, isForeground := false, command := pcmd0,
               promoted := pprom0, remainingTime := 0 } : Process)]).eraseP
        (fun x => x.id == pid0) = q.bgProcesses := by
      rw [List.eraseP_append_right _ (by intro b hb; simp [hnb b hb])]
      simp [List.eraseP_cons]
    have hfnone : q.fgProcesses.find? (fun x => x.id == pid0) = none := by
      rw [List.find?_eq_none]
      intro x hx
      simp [hnf x hx]
    refine ⟨{ q with
        waitQueue := [(pid0,
          { id := pid0, isForeground := false, command := pcmd0,
            promoted := pprom0, remainingTime := ((n + 1 : Nat) : Int) })],
        processCount := q.processCount + 1 }, ?_, ?_⟩
    · rw [DynamicQueue.enqueue]
      simp only [Bool.false_eq_true, if_false]
      simp [DynamicQueue.simulateSleep, hfnone, hfind, herase, hwait, mapInsert]
    · have hts := ticks_single_waiter n
        ({ q with
            waitQueue := [(pid0,
              { id := pid0, isForeground := false, command := pcmd0,
                promoted := pprom0, remainingTime := ((n + 1 : Nat) : Int) })],
            processCount := q.processCount + 1 } : DynamicQueue)
        pid0
        ({ id := pid0, isForeground := false, command := pcmd0,
           promoted := pprom0, remainingTime := ((n + 1 : Nat) : Int) } : Process)
        rfl (by push_cast; ring)
      rw [hts]
      rw [DynamicQueue.enqueue]
      simp [hwait]

/-- C7 witness: from the bootstrap queue (empty wait map, ids 0 and 1) the
round trip for a fresh foreground process 2 with `s = 2` returns exactly
the enqueue-only state. -/
theorem round_trip_witness :
    ∃ mid, (bootstrapQueue.enqueue
        { id := 2, isForeground := true, command := "x" }).simulateSleep 2
        ((2 : Nat) : Int) = some mid ∧
      ticks 2 mid = bootstrapQueue.enqueue
        { id := 2, isForeground := true, command := "x" } :=
  round_trip bootstrapQueue
    { id := 2, isForeground := true, command := "x" } 2
    (by decide) rfl rfl (by decide)

/-! ### Multi-tick evolution of the wait map -/

theorem survivorsK_cons_keep {e : Int × Process} {rest : List (Int × Process)}
    (k : Nat) (h : (k : Int) < e.2.remainingTime) :
    survivorsK k (e :: rest)
      = (e.1, { e.2 with remainingTime := e.2.remainingTime - k }) :: survivorsK k rest := by
  simp [survivorsK, List.filterMap_cons, h]

theorem survivorsK_cons_drop {e : Int × Process} {rest : List (Int × Process)}
    (k : Nat) (h : ¬ (k : Int) < e.2.remainingTime) :
    survivorsK k (e :: rest) = survivorsK k rest := by
  simp [survivorsK, List.filterMap_cons, h]

theorem survivorsK_append (k : Nat) (l₁ l₂ : List (Int × Process)) :
    survivorsK k (l₁ ++ l₂) = survivorsK k l₁ ++ survivorsK k l₂ := by
  simp [survivorsK, List.filterMap_append]

theorem tickSurvivors_eq_survivorsK_one (l : List (Int × Process)) :
    tickSurvivors l = survivorsK 1 l := by
  induction l with
  | nil => rfl
  | cons e rest ih =>
    by_cases h : ((1 : Nat) : Int) < e.2.remainingTime
    · have h1 : ¬ (decTick e.2).remainingTime ≤ 0 := by
        simp only [decTick]
        push_cast at h
        omega
      rw [tickSurvivors_cons_stay _ h1, survivorsK_cons_keep 1 h, ih,
        show ((1 : Nat) : Int) = 1 from rfl]
      rfl
    · have h1 : (decTick e.2).remainingTime ≤ 0 := by
        simp only [decTick]
        push_cast at h
        omega
      rw [tickSurvivors_cons_wake _ h1, survivorsK_cons_drop 1 h, ih]

theorem tickSurvivors_survivorsK (k : Nat) (l : List (Int × Process)) :
    tickSurvivors (survivorsK k l) = survivorsK (k + 1) l := by
  induction l with
  | nil => rfl
  | cons e rest ih =>
    by_cases h1 : (k : Int) < e.2.remainingTime
    · rw [survivorsK_cons_keep k h1]
      by_cases h2 : ((k + 1 : Nat) : Int) < e.2.remainingTime
      · have hst : ¬ (decTick { e.2 with remainingTime := e.2.remainingTime - k }).remainingTime ≤ 0 := by
          simp only [decTick]
          push_cast at h2 ⊢
          omega
        have hrec : decTick { e.2 with remainingTime := e.2.remainingTime - (k : Int) }
            = { e.2 with remainingTime := e.2.remainingTime - ((k + 1 : Nat) : Int) } := by
          simp only [decTick]
          congr 1
          omega
        rw [tickSurvivors_cons_stay _ hst, survivorsK_cons_keep (k + 1) h2, ih, hrec]
      · have hwk : (decTick { e.2 with remainingTime := e.2.remainingTime - k }).remainingTime ≤ 0 := by
          simp only [decTick]
          push_cast at h2 ⊢
          omega
        rw [tickSurvivors_cons_wake _ hwk, survivorsK_cons_drop (k + 1) h2, ih]
    · have h2 : ¬ ((k + 1 : Nat) : Int) < e.2.remainingTime := by
        push_cast at h1 ⊢
        omega
      rw [survivorsK_cons_drop k h1, survivorsK_cons_drop (k + 1) h2, ih]

theorem ticks_wait (m : Nat) (q : DynamicQueue) :
    (ticks (m + 1) q).waitQueue = survivorsK (m + 1) q.waitQueue := by
  induction m with
  | zero =>
    have h : ticks 1 q = q.wakeUpProcesses := rfl
    rw [h, wakeUpProcesses_eq]
    exact tickSurvivors_eq_survivorsK_one q.waitQueue
  | succ m ih =>
    rw [ticks_succ (m + 1) q, wakeUpProcesses_eq]
    show tickSurvivors ((ticks (m + 1) q).waitQueue) = _
    rw [ih]
    exact tickSurvivors_survivorsK (m + 1) q.waitQueue

theorem sorted_split {l : List (Int × Process)} {pid : Int} {p : Process}
    (hmem : (pid, p) ∈ l) (hsorted : l.Pairwise (fun e e' => e.1 < e'.1)) :
    ∃ L1 L2, l = L1 ++ (pid, p) :: L2 ∧ ∀ e ∈ L2, pid < e.1 := by
  obtain ⟨L1, L2, rfl⟩ := List.append_of_mem hmem
  refine ⟨L1, L2, rfl, ?_⟩
  have h := (List.pairwise_append.1 hsorted).2.1
  exact fun e he => (List.pairwise_cons.1 h).1 e he

theorem tickWokenF_split (L1 L2 : List (Int × Process)) (pid : Int) (w : Process)
    (hw : (decTick w).remainingTime ≤ 0) (hwf : (decTick w).isForeground = true)
    (hL2 : ∀ e ∈ L2,
      ¬ ((decTick e.2).remainingTime ≤ 0 ∧ (decTick e.2).isForeground = true)) :
    tickWokenF (L1 ++ (pid, w) :: L2) = tickWokenF L1 ++ [decTick w] := by
  have happ : tickWokenF (L1 ++ (pid, w) :: L2)
      = tickWokenF L1 ++ tickWokenF ((pid, w) :: L2) := by
    simp [tickWokenF, List.filterMap_append]
  rw [happ, tickWokenF_cons_wakeF _ hw hwf]
  have hnil : tickWokenF L2 = [] := by
    simp only [tickWokenF, List.filterMap_eq_nil_iff]
    intro e he
    rcases hL2 e he with h
    split_ifs with h1 h2
    · exact absurd ⟨h1, h2⟩ h
    · rfl
    · rfl
  rw [hnil]

theorem tickWokenB_split (L1 L2 : List (Int × Process)) (pid : Int) (w : Process)
    (hw : (decTick w).remainingTime ≤ 0) (hwf : (decTick w).isForeground = false)
    (hL2 : ∀ e ∈ L2,
      ¬ ((decTick e.2).remainingTime ≤ 0 ∧ (decTick e.2).isForeground = false)) :
    tickWokenB (L1 ++ (pid, w) :: L2) = tickWokenB L1 ++ [decTick w] := by
  have happ : tickWokenB (L1 ++ (pid, w) :: L2)
      = tickWokenB L1 ++ tickWokenB ((pid, w) :: L2) := by
    simp [tickWokenB, List.filterMap_append]
  rw [happ, tickWokenB_cons_wakeB _ hw hwf]
  have hnil : tickWokenB L2 = [] := by
    simp only [tickWokenB, List.filterMap_eq_nil_iff]
    intro e he
    rcases hL2 e he with h
    split_ifs with h1 h2
    · rfl
    · exact absurd ⟨h1, by simpa using h2⟩ h
    · rfl
  rw [hnil]

theorem mem_tickWokenF {l : List (Int × Process)} {e : Int × Process}
    (he : e ∈ l) (h1 : (decTick e.2).remainingTime ≤ 0)
    (h2 : (decTick e.2).isForeground = true) :
    decTick e.2 ∈ tickWokenF l := by
  simp only [tickWokenF, List.mem_filterMap]
  exact ⟨e, he, by simp [h1, h2]⟩

theorem mem_tickWokenB {l : List (Int × Process)} {e : Int × Process}
    (he : e ∈ l) (h1 : (decTick e.2).remainingTime ≤ 0)
    (h2 : (decTick e.2).isForeground = false) :
    decTick e.2 ∈ tickWokenB l := by
  simp only [tickWokenB, List.mem_filterMap]
  exact ⟨e, he, by simp [h1, h2]⟩

/-- C6 counterexample: process 2 is placed into wait by `sleep(2, 1)` with
`s = 1 ≥ 1` and nothing touches it afterwards, yet after exactly 1
`tick_wake` it is in its native (fg) list but NOT at the tail: waiter 3
expires on the same tick and is appended after it. -/
theorem sleep_wake_timing_cex :
    runTrace {} [ShellEvent.enq { id := 2, isForeground := true, command := "a" },
      ShellEvent.enq { id := 3, isForeground := true, command := "b" },
      ShellEvent.slp 3 1, ShellEvent.slp 2 1] = some twoWaiters ∧
    ({ id := 2, isForeground := true, command := "a",
       promoted := false, remainingTime := 0 } : Process)
      ∈ (ticks 1 twoWaiters).fgProcesses ∧
    (ticks 1 twoWaiters).fgProcesses.getLast? ≠
      some { id := 2, isForeground := true, command := "a",
             promoted := false, remainingTime := 0 } := by
  refine ⟨by decide, by decide, by decide⟩

/-- C6 (amended): let `p` sit in the wait map at key `pid` with
`remaining_time = s ≥ 1` (as `sleep(pid, s)` leaves it).  If no further
operation touches `p`, then after `k < s` tick-wakes `p` is still in the
wait map with `remaining_time = s − k`; after exactly `s` tick-wakes `p`
is in its native ready list, and it sits at the tail provided no other
same-class wait entry with a larger id wakes on that same tick (the wait
map being sorted by key, as `std::map` iteration guarantees). -/
theorem sleep_wake_timing (q : DynamicQueue) (pid : Int) (p : Process) (s : Nat)
    (hs : 1 ≤ s)
    (hmem : (pid, p) ∈ q.waitQueue)
    (hrt : p.remainingTime = (s : Int)) :
    (∀ k : Nat, k < s →
      (pid, { p with remainingTime := (s : Int) - (k : Int) })
        ∈ (ticks k q).waitQueue) ∧
    (if p.isForeground then
        ({ p with remainingTime := 0 } : Process) ∈ (ticks s q).fgProcesses
      else
        ({ p with remainingTime := 0 } : Process) ∈ (ticks s q).bgProcesses) ∧
    (q.waitQueue.Pairwise (fun e e' => e.1 < e'.1) →
      (∀ e ∈ q.waitQueue, pid < e.1 →
        e.2.isForeground = p.isForeground → wakeTickOf e.2.remainingTime ≠ s) →
      (if p.isForeground then
          (ticks s q).fgProcesses.getLast? = some { p with remainingTime := 0 }
        else
          (ticks s q).bgProcesses.getLast? = some { p with remainingTime := 0 })) := by
  have ha : ∀ k : Nat, k < s →
      (pid, { p with remainingTime := (s : Int) - (k : Int) })
        ∈ (ticks k q).waitQueue := by
    intro k hk
    cases k with
    | zero =>
      have h0 : ({ p with remainingTime := (s : Int) - ((0 : Nat) : Int) } : Process)
          = p := by
        have he : (s : Int) - ((0 : Nat) : Int) = p.remainingTime := by
          rw [hrt]
          simp
        rw [he]
      rw [h0]
      exact hmem
    | succ m =>
      rw [ticks_wait m q]
      simp only [survivorsK, List.mem_filterMap]
      refine ⟨(pid, p), hmem, ?_⟩
      rw [if_pos (by rw [hrt]; exact_mod_cast hk)]
      rw [hrt]
  refine ⟨ha, ?_, ?_⟩
  · obtain ⟨m, rfl⟩ : ∃ m, s = m + 1 := ⟨s - 1, by omega⟩
    have hpm := ha m (by omega)
    have hticks : ticks (m + 1) q = (ticks m q).wakeUpProcesses := ticks_succ m q
    have h1 : (decTick { p with
        remainingTime := ((m + 1 : Nat) : Int) - ((m : Nat) : Int) }).remainingTime ≤ 0 := by
      simp only [decTick]
      push_cast
      omega
    have hdp : decTick { p with
        remainingTime := ((m + 1 : Nat) : Int) - ((m : Nat) : Int) }
        = { p with remainingTime := 0 } := by
      simp only [decTick]
      congr 1
      push_cast
      ring
    by_cases hp : p.isForeground = true
    · rw [if_pos hp, hticks, wakeUpProcesses_eq]
      show _ ∈ (ticks m q).fgProcesses ++ tickWokenF ((ticks m q).waitQueue)
      apply List.mem_append_right
      have hmf := mem_tickWokenF hpm h1 (by simpa [decTick] using hp)
      rwa [hdp] at hmf
    · rw [if_neg hp]
      have hpf : p.isForeground = false := by simpa using hp
      rw [hticks, wakeUpProcesses_eq]
      show _ ∈ (ticks m q).bgProcesses ++ tickWokenB ((ticks m q).waitQueue)
      apply List.mem_append_right
      have hmb := mem_tickWokenB hpm h1 (by simpa [decTick] using hpf)
      rwa [hdp] at hmb
  · intro hsorted hsolo
    obtain ⟨m, rfl⟩ : ∃ m, s = m + 1 := ⟨s - 1, by omega⟩
    obtain ⟨L1, L2, hdec, hL2gt⟩ := sorted_split hmem hsorted
    have hmemsub : ∀ a ∈ L2, a ∈ q.waitQueue := by
      intro a ha
      rw [hdec]
      exact List.mem_append_right _ (List.mem_cons_of_mem _ ha)
    by_cases hp : p.isForeground = true
    · rw [if_pos hp]
      cases m with
      | zero =>
        have hticks : ticks 1 q = q.wakeUpProcesses := rfl
        rw [hticks, wakeUpProcesses_eq]
        show (q.fgProcesses ++ tickWokenF q.waitQueue).getLast? = _
        have hw : (decTick p).remainingTime ≤ 0 := by
          simp only [decTick]
          omega
        have hwf : (decTick p).isForeground = true := by
          simpa [decTick] using hp
        have hL2cond : ∀ e ∈ L2,
            ¬ ((decTick e.2).remainingTime ≤ 0 ∧ (decTick e.2).isForeground = true) := by
          rintro e he ⟨h1, h2⟩
          simp only [decTick] at h1 h2
          have hwt : wakeTickOf e.2.remainingTime = 0 + 1 := by
            have hmax : max e.2.remainingTime 1 = 1 := max_eq_right (by omega)
            simp [wakeTickOf, hmax]
          exact hsolo e (hmemsub e he) (hL2gt e he) (by rw [hp]; exact h2) hwt
        rw [hdec, tickWokenF_split L1 L2 pid p hw hwf hL2cond]
        have hdp : decTick p = { p with remainingTime := 0 } := by
          simp only [decTick]
          congr 1
          omega
        rw [hdp, show q.fgProcesses ++ (tickWokenF L1 ++ [{ p with remainingTime := 0 }])
            = (q.fgProcesses ++ tickWokenF L1) ++ [{ p with remainingTime := 0 }] by simp]
        exact List.getLast?_concat _
      | succ m' =>
        have hticks : ticks (m' + 1 + 1) q = (ticks (m' + 1) q).wakeUpProcesses :=
          ticks_succ (m' + 1) q
        rw [hticks, wakeUpProcesses_eq]
        show ((ticks (m' + 1) q).fgProcesses
          ++ tickWokenF ((ticks (m' + 1) q).waitQueue)).getLast? = _
        rw [ticks_wait m' q, hdec, survivorsK_append,
          survivorsK_cons_keep (m' + 1) (by rw [hrt]; push_cast; omega)]
        have hw : (decTick { p with
            remainingTime := p.remainingTime - ((m' + 1 : Nat) : Int) }).remainingTime ≤ 0 := by
          simp only [decTick]
          omega
        have hwf : (decTick { p with
            remainingTime := p.remainingTime - ((m' + 1 : Nat) : Int) }).isForeground = true := by
          simpa [decTick] using hp
        have hL2cond : ∀ e ∈ survivorsK (m' + 1) L2,
            ¬ ((decTick e.2).remainingTime ≤ 0 ∧ (decTick e.2).isForeground = true) := by
          rintro e' he' ⟨h1, h2⟩
          simp only [survivorsK, List.mem_filterMap] at he'
          obtain ⟨a, haL2, hfa⟩ := he'
          split_ifs at hfa with hcond
          cases hfa
          simp only [decTick] at h1 h2
          have hwt : wakeTickOf a.2.remainingTime = m' + 1 + 1 := by
            have hmax : max a.2.remainingTime 1 = a.2.remainingTime :=
              max_eq_left (by omega)
            simp only [wakeTickOf, hmax]
            omega
          exact hsolo a (hmemsub a haL2) (hL2gt a haL2) (by rw [hp]; exact h2) hwt
        rw [tickWokenF_split (survivorsK (m' + 1) L1) (survivorsK (m' + 1) L2)
          pid _ hw hwf hL2cond]
        have hdp : decTick { p with
            remainingTime := p.remainingTime - ((m' + 1 : Nat) : Int) }
            = { p with remainingTime := 0 } := by
          simp only [decTick]
          congr 1
          omega
        rw [hdp, show (ticks (m' + 1) q).fgProcesses
            ++ (tickWokenF (survivorsK (m' + 1) L1) ++ [{ p with remainingTime := 0 }])
            = ((ticks (m' + 1) q).fgProcesses ++ tickWokenF (survivorsK (m' + 1) L1))
              ++ [{ p with remainingTime := 0 }] by simp]
        exact List.getLast?_concat _
    · rw [if_neg hp]
      have hpf : p.isForeground = false := by simpa using hp
      cases m with
      | zero =>
        have hticks : ticks 1 q = q.wakeUpProcesses := rfl
        rw [hticks, wakeUpProcesses_eq]
        show (q.bgProcesses ++ tickWokenB q.waitQueue).getLast? = _
        have hw : (decTick p).remainingTime ≤ 0 := by
          simp only [decTick]
          omega
        have hwf : (decTick p).isForeground = false := by
          simpa [decTick] using hpf
        have hL2cond : ∀ e ∈ L2,
            ¬ ((decTick e.2).remainingTime ≤ 0 ∧ (decTick e.2).isForeground = false) := by
          rintro e he ⟨h1, h2⟩
          simp only [decTick] at h1 h2
          have hwt : wakeTickOf e.2.remainingTime = 0 + 1 := by
            have hmax : max e.2.remainingTime 1 = 1 := max_eq_right (by omega)
            simp [wakeTickOf, hmax]
          exact hsolo e (hmemsub e he) (hL2gt e he) (by rw [hpf]; exact h2) hwt
        rw [hdec, tickWokenB_split L1 L2 pid p hw hwf hL2cond]
        have hdp : decTick p = { p with remainingTime := 0 } := by
          simp only [decTick]
          congr 1
          omega
        rw [hdp, show q.bgProcesses ++ (tickWokenB L1 ++ [{ p with remainingTime := 0 }])
            = (q.bgProcesses ++ tickWokenB L1) ++ [{ p with remainingTime := 0 }] by simp]
        exact List.getLast?_concat _
      | succ m' =>
        have hticks : ticks (m' + 1 + 1) q = (ticks (m' + 1) q).wakeUpProcesses :=
          ticks_succ (m' + 1) q
        rw [hticks, wakeUpProcesses_eq]
        show ((ticks (m' + 1) q).bgProcesses
          ++ tickWokenB ((ticks (m' + 1) q).waitQueue)).getLast? = _
        rw [ticks_wait m' q, hdec, survivorsK_append,
          survivorsK_cons_keep (m' + 1) (by rw [hrt]; push_cast; omega)]
        have hw : (decTick { p with
            remainingTime := p.remainingTime - ((m' + 1 : Nat) : Int) }).remainingTime ≤ 0 := by
          simp only [decTick]
          omega
        have hwf : (decTick { p with
            remainingTime := p.remainingTime - ((m' + 1 : Nat) : Int) }).isForeground = false := by
          simpa [decTick] using hpf
        have hL2cond : ∀ e ∈ survivorsK (m' + 1) L2,
            ¬ ((decTick e.2).remainingTime ≤ 0 ∧ (decTick e.2).isForeground = false) := by
          rintro e' he' ⟨h1, h2⟩
          simp only [survivorsK, List.mem_filterMap] at he'
          obtain ⟨a, haL2, hfa⟩ := he'
          split_ifs at hfa with hcond
          cases hfa
          simp only [decTick] at h1 h2
          have hwt : wakeTickOf a.2.remainingTime = m' + 1 + 1 := by
            have hmax : max a.2.remainingTime 1 = a.2.remainingTime :=
              max_eq_left (by omega)
            simp only [wakeTickOf, hmax]
            omega
          exact hsolo a (hmemsub a haL2) (hL2gt a haL2) (by rw [hpf]; exact h2) hwt
        rw [tickWokenB_split (survivorsK (m' + 1) L1) (survivorsK (m' + 1) L2)
          pid _ hw hwf hL2cond]
        have hdp : decTick { p with
            remainingTime := p.remainingTime - ((m' + 1 : Nat) : Int) }
            = { p with remainingTime := 0 } := by
          simp only [decTick]
          congr 1
          omega
        rw [hdp, show (ticks (m' + 1) q).bgProcesses
            ++ (tickWokenB (survivorsK (m' + 1) L1) ++ [{ p with remainingTime := 0 }])
            = ((ticks (m' + 1) q).bgProcesses ++ tickWokenB (survivorsK (m' + 1) L1))
              ++ [{ p with remainingTime := 0 }] by simp]
        exact List.getLast?_concat _

/-- C6 witness: the monitor process sits alone in `monitorWaiting`'s wait
map with remaining time 5; after 2 ticks it is still waiting with
remaining time `5 − 2`, and after 5 ticks it is at the tail of the
background list with remaining time 0. -/
theorem sleep_wake_timing_witness :
    (1, { id := 1, isForeground := false, command := "monitor", promoted := false,
          remainingTime := ((5 : Nat) : Int) - ((2 : Nat) : Int) })
      ∈ (ticks 2 monitorWaiting).waitQueue ∧
    (ticks 5 monitorWaiting).bgProcesses.getLast?
      = some { id := 1, isForeground := false, command := "monitor",
               promoted := false, remainingTime := 0 } := by
  have h := sleep_wake_timing monitorWaiting 1
    { id := 1, isForeground := false, command := "monitor",
      promoted := false, remainingTime := 5 } 5
    (by decide) (by decide) (by decide)
  exact ⟨h.1 2 (by decide), by simpa using h.2.2 (by decide) (by decide)⟩

end Project5
